import Mathlib

/-!
Verification of the fractal-explorer application (`src/main.rs`) against its
natural-language specification.

Shallow embedding conventions:
* `f64` arithmetic on the values the claims touch (`+`, `-`, `*`, `/`, `abs`,
  `min`, `max`, `clamp`) is modelled over `ℚ` where every constant involved is
  exactly representable, and over `ℝ` where the source applies `sqrt`
  (the Koch generator).
* `f64 as i32` casts are modelled by truncation toward zero saturated to the
  `i32` range (`i32cast`).
* `self.zoom.log10()` is not a rational operation; definitions that consume it
  take the value `l10 = log10 zoom` as an explicit parameter (for the concrete
  scenarios in the claims, `zoom = 1` gives `l10 = 0` exactly).
* The `unreachable!()` arm of the escape-time initialisation (the `Koch`
  variant inside `generate_fractal_image`) is modelled as `Option.none`.
-/

namespace FractalApp

/-- `const WIDTH: u32 = 1200` (main.rs line 3). -/
def WIDTH : ℕ := 1200

/-- `const HEIGHT: u32 = 800` (main.rs line 4). -/
def HEIGHT : ℕ := 800

/-- `enum FractalType` (main.rs lines 7-11). -/
inductive FractalType where
  | Mandelbrot
  | Julia
  | Koch
deriving DecidableEq, Repr

/-- The viewport part of `MandelbrotApp`: `center_x`, `center_y`, `zoom`
(main.rs lines 26-28). -/
structure Viewport where
  center_x : ℚ
  center_y : ℚ
  zoom : ℚ
deriving DecidableEq, Repr

/-- Truncation toward zero, the rounding used by Rust `as` casts from a float
to an integer for in-range values. -/
def ratTrunc (q : ℚ) : ℤ :=
  if q < 0 then ⌈q⌉ else ⌊q⌋

/-- Rust `f64 as i32`: truncate toward zero and saturate to the `i32` range. -/
def i32cast (q : ℚ) : ℤ :=
  max (-2147483648) (min 2147483647 (ratTrunc q))

/-- View bounds of `generate_fractal_image` (main.rs lines 404-411):
`height_range = 3.0/zoom`, `width_range = height_range * (WIDTH/HEIGHT)`,
bounds `(left, right, top, bottom)` centered on `(center_x, center_y)`. -/
def viewBounds (v : Viewport) : ℚ × ℚ × ℚ × ℚ :=
  let aspect : ℚ := (WIDTH : ℚ) / (HEIGHT : ℚ)
  let height_range : ℚ := 3 / v.zoom
  let width_range : ℚ := height_range * aspect
  (v.center_x - width_range / 2, v.center_x + width_range / 2,
   v.center_y - height_range / 2, v.center_y + height_range / 2)

/-- Pixel-to-plane mapping of `generate_fractal_image` (main.rs lines 416-417):
`px = left + (x/WIDTH)*(right-left)`, `py = top + (y/HEIGHT)*(bottom-top)`. -/
def pixelToPlane (v : Viewport) (x y : ℕ) : ℚ × ℚ :=
  let b := viewBounds v
  (b.1 + ((x : ℚ) / (WIDTH : ℚ)) * (b.2.1 - b.1),
   b.2.2.1 + ((y : ℚ) / (HEIGHT : ℚ)) * (b.2.2.2 - b.2.2.1))

/-- Escape-time state initialisation (main.rs lines 419-429):
for Mandelbrot `(zx, zy, cx, cy) = (0, 0, px, py)`; for Julia
`(zx, zy, cx, cy) = (px, py, julia_c_real, julia_c_imag)`; the `Koch` arm is
`unreachable!()`, modelled as `none`. -/
def initState (ft : FractalType) (julia_c_real julia_c_imag px py : ℚ) :
    Option (ℚ × ℚ × ℚ × ℚ) :=
  match ft with
  | .Mandelbrot => some (0, 0, px, py)
  | .Julia => some (px, py, julia_c_real, julia_c_imag)
  | .Koch => none

/-- Iteration budget (main.rs lines 432-433):
`max_iter = ((255.0 + (zoom.log10()*100.0).max(0.0)) as i32).min(1000)`,
taking `l10 = log10 zoom` as a parameter. -/
def maxIter (l10 : ℚ) : ℤ :=
  min (i32cast (255 + max 0 (l10 * 100))) 1000

/-- The escape-time loop (main.rs lines 435-441): starting from `(zx, zy)`
with constant `(cx, cy)` and a fuel of `max_iter`, run
`z ← z² + c` while `zx² + zy² < 4`, returning the number of iterations
performed (the loop's final `iter`). -/
def escapeSteps (cx cy : ℚ) : ℚ → ℚ → ℕ → ℕ
  | _, _, 0 => 0
  | zx, zy, fuel + 1 =>
    if zx * zx + zy * zy < 4 then
      escapeSteps cx cy (zx * zx - zy * zy + cx) (2 * zx * zy + cy) fuel + 1
    else 0

/-- RGB colour triple (`egui::Color32::from_rgb`). -/
def Color := ℕ × ℕ × ℕ
deriving DecidableEq, Repr

/-- `egui::Color32::BLACK`. -/
def blackColor : Color := (0, 0, 0)

/-- The per-pixel colour decision of `generate_fractal_image`
(main.rs lines 419-516): initialise by variant, run the escape loop with the
`maxIter` budget, return black when the count reached `max_iter`, and
otherwise the palette colour.  The variant-specific palettes
(lines 447-515) apply `f64::powf` to `iter / max_iter`, which has no exact
rational model, so the palette is a parameter; the claims only concern the
black branch. -/
def escapePixelColor (palette : FractalType → ℕ → ℕ → Color)
    (ft : FractalType) (julia_c_real julia_c_imag l10 px py : ℚ) :
    Option Color :=
  (initState ft julia_c_real julia_c_imag px py).map fun st =>
    let mi := (maxIter l10).toNat
    let it := escapeSteps st.2.2.1 st.2.2.2 st.1 st.2.1 mi
    if it = mi then blackColor else palette ft it mi

/-- Trisection point `p2 = start + (end - start)/3` of `generate_koch_segments`
(main.rs line 558). -/
noncomputable def kochP2 (s e : ℝ × ℝ) : ℝ × ℝ :=
  (s.1 + (e.1 - s.1) / 3, s.2 + (e.2 - s.2) / 3)

/-- Trisection point `p4 = start + 2(end - start)/3` (main.rs line 559). -/
noncomputable def kochP4 (s e : ℝ × ℝ) : ℝ × ℝ :=
  (s.1 + 2 * (e.1 - s.1) / 3, s.2 + 2 * (e.2 - s.2) / 3)

/-- The bump apex `p3` of `generate_koch_segments` (main.rs lines 562-571):
midpoint of `p2, p4` offset along the unit normal
`(-dy, dx) / sqrt(dx² + dy²)` by `(sqrt(dx² + dy²)/3) * (sqrt 3 / 2)`.
The source computes this unconditionally, with no zero-length guard. -/
noncomputable def kochP3 (s e : ℝ × ℝ) : ℝ × ℝ :=
  let dx := e.1 - s.1
  let dy := e.2 - s.2
  let p2 := kochP2 s e
  let p4 := kochP4 s e
  let mid_x := (p2.1 + p4.1) / 2
  let mid_y := (p2.2 + p4.2) / 2
  let segment_length := Real.sqrt (dx * dx + dy * dy) / 3
  let height := segment_length * (Real.sqrt 3 / 2)
  let normal_x := -dy / Real.sqrt (dx * dx + dy * dy)
  let normal_y := dx / Real.sqrt (dx * dx + dy * dy)
  (mid_x + normal_x * height, mid_y + normal_y * height)

/-- `generate_koch_segments` (main.rs lines 546-578).  The Rust function pushes
segments onto a `&mut Vec` in depth-first order; the model returns the list of
segments it appends. -/
noncomputable def generate_koch_segments (s e : ℝ × ℝ) : ℕ → List ((ℝ × ℝ) × (ℝ × ℝ))
  | 0 => [(s, e)]
  | depth + 1 =>
    generate_koch_segments s (kochP2 s e) depth ++
    generate_koch_segments (kochP2 s e) (kochP3 s e) depth ++
    generate_koch_segments (kochP3 s e) (kochP4 s e) depth ++
    generate_koch_segments (kochP4 s e) e depth

/-- Holds when the recursion of `generate_koch_segments` reaches a node of
positive depth whose normal-vector divisor `sqrt(dx² + dy²)`
(main.rs lines 569-570) is zero, i.e. when a division by zero is executed. -/
def KochZeroDiv (s e : ℝ × ℝ) : ℕ → Prop
  | 0 => False
  | depth + 1 =>
    Real.sqrt ((e.1 - s.1) * (e.1 - s.1) + (e.2 - s.2) * (e.2 - s.2)) = 0 ∨
    KochZeroDiv s (kochP2 s e) depth ∨
    KochZeroDiv (kochP2 s e) (kochP3 s e) depth ∨
    KochZeroDiv (kochP3 s e) (kochP4 s e) depth ∨
    KochZeroDiv (kochP4 s e) e depth

/-- The axis-aligned screen rectangle of the rendered image
(`egui::Rect` as used through `left()`, `top()`, `width()`, `height()`). -/
structure ScreenRect where
  left : ℚ
  top : ℚ
  width : ℚ
  height : ℚ
deriving DecidableEq, Repr

/-- Screen-space width `|end.x - start.x|` of the selection rectangle
(main.rs line 623). -/
def zrRectWidth (s e : ℚ × ℚ) : ℚ := |e.1 - s.1|

/-- Screen-space height `|end.y - start.y|` of the selection rectangle
(main.rs line 624). -/
def zrRectHeight (s e : ℚ × ℚ) : ℚ := |e.2 - s.2|

/-- Rust `f64::clamp(lo, hi)` over `ℚ`. -/
def clampQ (x lo hi : ℚ) : ℚ := min (max x lo) hi

/-- The clamped relative corner coordinates of `zoom_to_rectangle`
(main.rs lines 631-645): normalise to top-left/bottom-right order, convert to
coordinates relative to `image_rect`, clamp to `[0, 1]`.  Returns
`(rel_start_x, rel_start_y, rel_end_x, rel_end_y)`. -/
def zrRelCoords (s e : ℚ × ℚ) (r : ScreenRect) : ℚ × ℚ × ℚ × ℚ :=
  let rsx := min s.1 e.1
  let rsy := min s.2 e.2
  let rex := max s.1 e.1
  let rey := max s.2 e.2
  (clampQ ((rsx - r.left) / r.width) 0 1,
   clampQ ((rsy - r.top) / r.height) 0 1,
   clampQ ((rex - r.left) / r.width) 0 1,
   clampQ ((rey - r.top) / r.height) 0 1)

/-- The selected plane rectangle of `zoom_to_rectangle`
(main.rs lines 647-661): map the relative corners into the current view
bounds.  Returns `(selected_left, selected_right, selected_top,
selected_bottom)`. -/
def zrSelectedBounds (v : Viewport) (s e : ℚ × ℚ) (r : ScreenRect) :
    ℚ × ℚ × ℚ × ℚ :=
  let rel := zrRelCoords s e r
  let b := viewBounds v
  (b.1 + rel.1 * (b.2.1 - b.1),
   b.1 + rel.2.2.1 * (b.2.1 - b.1),
   b.2.2.1 + rel.2.1 * (b.2.2.2 - b.2.2.1),
   b.2.2.1 + rel.2.2.2 * (b.2.2.2 - b.2.2.1))

/-- The zoom factor of `zoom_to_rectangle` (main.rs lines 667-674):
`min(width_range / selected_width, height_range / selected_height)`. -/
def zrZoomFactor (v : Viewport) (s e : ℚ × ℚ) (r : ScreenRect) : ℚ :=
  let sel := zrSelectedBounds v s e r
  let height_range : ℚ := 3 / v.zoom
  let width_range : ℚ := height_range * ((WIDTH : ℚ) / (HEIGHT : ℚ))
  min (width_range / (sel.2.1 - sel.1)) (height_range / (sel.2.2.2 - sel.2.2.1))

/-- `zoom_to_rectangle` (main.rs lines 621-686).  Returns the new viewport and
whether the change was applied (`needs_redraw` set).  Declines, leaving the
viewport unchanged, when the screen rectangle is narrower than 10 px in either
dimension or when the zoom factor is not `> 1`. -/
def zoom_to_rectangle (v : Viewport) (s e : ℚ × ℚ) (r : ScreenRect) :
    Viewport × Bool :=
  if zrRectWidth s e < 10 ∨ zrRectHeight s e < 10 then (v, false)
  else
    let sel := zrSelectedBounds v s e r
    let zoom_factor := zrZoomFactor v s e r
    if zoom_factor > 1 then
      (⟨(sel.1 + sel.2.1) / 2, (sel.2.2.1 + sel.2.2.2) / 2,
        v.zoom * zoom_factor⟩, true)
    else (v, false)

/-- Holds when `zoom_to_rectangle` passes its 10 px minimum-size test and then
executes a division whose divisor is zero: by `image_rect.width()`,
`image_rect.height()` (main.rs lines 636-639), or by `selected_width`,
`selected_height` (main.rs lines 672-673). -/
def zrHitsZeroDiv (v : Viewport) (s e : ℚ × ℚ) (r : ScreenRect) : Bool :=
  if zrRectWidth s e < 10 ∨ zrRectHeight s e < 10 then false
  else
    let sel := zrSelectedBounds v s e r
    decide (r.width = 0 ∨ r.height = 0 ∨
      sel.2.1 - sel.1 = 0 ∨ sel.2.2.2 - sel.2.2.1 = 0)

/-- Key `+`/`=`: `self.zoom *= 1.5` (main.rs line 198). -/
def key_zoom_in (v : Viewport) : Viewport := { v with zoom := v.zoom * (3/2) }

/-- Key `-`: `self.zoom *= 0.67` (main.rs line 203). -/
def key_zoom_out (v : Viewport) : Viewport := { v with zoom := v.zoom * (67/100) }

/-- Scroll wheel: `zoom *= if delta > 0 { 1.1 } else { 0.9 }`
(main.rs lines 264-267). -/
def scroll_zoom (v : Viewport) (scroll_delta : ℚ) : Viewport :=
  { v with zoom := v.zoom * (if scroll_delta > 0 then 11/10 else 9/10) }

/-- Canonical view reset per variant (main.rs lines 95-108 and 172-185):
Mandelbrot `((-0.5, 0), 1.0)`, Julia `((0, 0), 1.5)`, Koch `((0, -0.2), 0.8)`. -/
def reset_view (ft : FractalType) : Viewport :=
  match ft with
  | .Mandelbrot => ⟨-(1/2), 0, 1⟩
  | .Julia => ⟨0, 0, 3/2⟩
  | .Koch => ⟨0, -(1/5), 4/5⟩

/-- Rust `i32::abs`, written to reduce in the kernel. -/
def absI (a : ℤ) : ℤ := if a < 0 then -a else a

/-- Rust `i32::max`, written to reduce in the kernel. -/
def maxI (a b : ℤ) : ℤ := if a < b then b else a

/-- The pixel positions stamped by one step `i` of `draw_line`
(main.rs lines 601-617): the interpolated point as `i32` coordinates, then the
3×3 block around it, keeping only positions passing the bounds guard
`0 ≤ px < WIDTH ∧ 0 ≤ py < HEIGHT` (main.rs line 611). -/
def drawLineStamp (sx sy ex ey : ℤ) (i steps : ℕ) : List (ℤ × ℤ) :=
  let t : ℚ := (i : ℚ) / (steps : ℚ)
  let x := i32cast ((sx : ℚ) + t * ((ex - sx : ℤ) : ℚ))
  let y := i32cast ((sy : ℚ) + t * ((ey - sy : ℤ) : ℚ))
  ([-1, 0, 1] : List ℤ).flatMap fun dy =>
    ([-1, 0, 1] : List ℤ).flatMap fun dx =>
      let px := x + dx
      let py := y + dy
      if 0 ≤ px ∧ px < (WIDTH : ℤ) ∧ 0 ≤ py ∧ py < (HEIGHT : ℤ) then
        [(px, py)] else []

/-- The list of pixel-buffer indices `py * WIDTH + px` written by `draw_line`
(main.rs lines 580-619): plane endpoints are mapped to screen coordinates with
the inverse bounds transform and cast `as i32`, then the segment is walked in
`max(|dx|, |dy|, 1)` steps, stamping a guarded 3×3 block at each step. -/
def draw_line_indices (v : Viewport) (s e : ℚ × ℚ) : List ℤ :=
  let b := viewBounds v
  let sx := i32cast ((s.1 - b.1) / (b.2.1 - b.1) * (WIDTH : ℚ))
  let sy := i32cast ((s.2 - b.2.2.1) / (b.2.2.2 - b.2.2.1) * (HEIGHT : ℚ))
  let ex := i32cast ((e.1 - b.1) / (b.2.1 - b.1) * (WIDTH : ℚ))
  let ey := i32cast ((e.2 - b.2.2.1) / (b.2.2.2 - b.2.2.1) * (HEIGHT : ℚ))
  let dx := absI (ex - sx)
  let dy := absI (ey - sy)
  let steps := maxI dx (maxI dy 1)
  (List.range (steps.toNat + 1)).flatMap fun i =>
    (drawLineStamp sx sy ex ey i steps.toNat).map fun p =>
      p.2 * (WIDTH : ℤ) + p.1

/-- The gesture-relevant state of `MandelbrotApp` (main.rs lines 23-43):
viewport plus `dragging`, `last_mouse_pos`, `zoom_rect_start`, `zoom_rect_end`,
`selecting_zoom_rect`, `needs_redraw`. -/
structure AppState where
  viewport : Viewport
  dragging : Bool
  last_mouse_pos : Option (ℚ × ℚ)
  zoom_rect_start : Option (ℚ × ℚ)
  zoom_rect_end : Option (ℚ × ℚ)
  selecting_zoom_rect : Bool
  needs_redraw : Bool
deriving DecidableEq, Repr

/-- `MandelbrotApp::default()` (main.rs lines 45-64), gesture-relevant part. -/
def initialAppState : AppState :=
  ⟨⟨-(1/2), 0, 1⟩, false, none, none, none, false, true⟩

/-- Pointer events consumed by the drag handling in `update`
(main.rs lines 272-334).  `pos` is `ctx.input.pointer.interact_pos()` (absent
when `None`); `inImage` is the result of `image_rect.contains(mouse_pos)`
(an `f32` test performed by egui, passed in as a fact about the event);
`shift` is the modifier state sampled on that frame; `dragStopped` carries the
`image_rect` handed to `zoom_to_rectangle`. -/
inductive PtrEvent where
  | dragStarted (pos : Option (ℚ × ℚ)) (inImage : Bool) (shift : Bool)
  | dragged (pos : Option (ℚ × ℚ)) (shift : Bool)
  | dragStopped (r : ScreenRect)

/-- `response.drag_started()` handling (main.rs lines 275-290). -/
def stepDragStarted (st : AppState) (pos : Option (ℚ × ℚ))
    (inImage shift : Bool) : AppState :=
  match pos with
  | none => st
  | some p =>
    if inImage then
      if shift then
        { st with zoom_rect_start := some p, selecting_zoom_rect := true }
      else
        { st with last_mouse_pos := some p, dragging := true }
    else st

/-- `response.dragged()` handling (main.rs lines 292-318): update the
rectangle end when selecting with shift held; pan when dragging without
shift (pixel delta scaled by `range / dimension`, subtracted from center);
otherwise do nothing. -/
def stepDragged (st : AppState) (pos : Option (ℚ × ℚ)) (shift : Bool) :
    AppState :=
  match pos with
  | none => st
  | some p =>
    if st.selecting_zoom_rect && shift then
      { st with zoom_rect_end := some p }
    else if st.dragging && !shift then
      match st.last_mouse_pos with
      | some lp =>
        let height_range : ℚ := 3 / st.viewport.zoom
        let width_range : ℚ := height_range * ((WIDTH : ℚ) / (HEIGHT : ℚ))
        let scale_x := width_range / (WIDTH : ℚ)
        let scale_y := height_range / (HEIGHT : ℚ)
        { st with
          viewport :=
            { st.viewport with
              center_x := st.viewport.center_x - (p.1 - lp.1) * scale_x
              center_y := st.viewport.center_y - (p.2 - lp.2) * scale_y }
          needs_redraw := true
          last_mouse_pos := some p }
      | none => { st with last_mouse_pos := some p }
    else st

/-- `response.drag_stopped()` handling (main.rs lines 320-334): when selecting,
run `zoom_to_rectangle` if both corners exist and clear the selection state;
otherwise end the pan. -/
def stepDragStopped (st : AppState) (r : ScreenRect) : AppState :=
  if st.selecting_zoom_rect then
    let st2 :=
      match st.zoom_rect_start, st.zoom_rect_end with
      | some a, some b =>
        let res := zoom_to_rectangle st.viewport a b r
        { st with
          viewport := res.1
          needs_redraw := st.needs_redraw || res.2 }
      | _, _ => st
    { st2 with
      zoom_rect_start := none
      zoom_rect_end := none
      selecting_zoom_rect := false }
  else
    { st with dragging := false, last_mouse_pos := none }

/-- One pointer event processed by `update` (main.rs lines 272-334). -/
def step (st : AppState) : PtrEvent → AppState
  | .dragStarted pos inImage shift => stepDragStarted st pos inImage shift
  | .dragged pos shift => stepDragged st pos shift
  | .dragStopped r => stepDragStopped st r

/-- The egui drag protocol: `drag_started` fires only when no drag is in
progress, `dragged` and `drag_stopped` only while one is; the Boolean tracks
whether a drag is in progress. -/
def validSeq : Bool → List PtrEvent → Bool
  | _, [] => true
  | g, e :: rest =>
    match e with
    | .dragStarted _ _ _ => !g && validSeq true rest
    | .dragged _ _ => g && validSeq true rest
    | .dragStopped _ => g && validSeq false rest

theorem escapeSteps_succ (cx cy zx zy : ℚ) (n : ℕ) :
    escapeSteps cx cy zx zy (n + 1) =
      if zx * zx + zy * zy < 4 then
        escapeSteps cx cy (zx * zx - zy * zy + cx) (2 * zx * zy + cy) n + 1
      else 0 := rfl

theorem escapeSteps_interior (n : ℕ) : ∀ zx : ℚ, -(1/2) ≤ zx → zx ≤ 0 →
    escapeSteps (-(1/2)) 0 zx 0 n = n := by
  induction n with
  | zero => intro zx _ _; rfl
  | succ k ih =>
    intro zx h1 h2
    rw [escapeSteps_succ]
    rw [if_pos (by nlinarith)]
    have h3 : (2 * zx * 0 + 0 : ℚ) = 0 := by ring
    have h4 : (zx * zx - 0 * 0 + -(1/2) : ℚ) = zx * zx + -(1/2) := by ring
    rw [h3, h4, ih (zx * zx + -(1/2)) (by nlinarith) (by nlinarith)]

/-- C1: for width 1200, height 800, center `(-0.5, 0)`, zoom `1.0`, the view
bounds are exactly `(-2.75, 1.75, -1.5, 1.5)`; pixel `(600, 400)` maps to the
plane point `(-0.5, 0)`; and the Mandelbrot escape loop at that point reaches
`max_iter` (255, since `log10 1 = 0`), so the pixel is coloured black,
whatever the palette. -/
theorem mandelbrot_center_pixel_black :
    viewBounds ⟨-0.5, 0, 1⟩ = (-2.75, 1.75, -1.5, 1.5) ∧
    pixelToPlane ⟨-0.5, 0, 1⟩ 600 400 = (-0.5, 0) ∧
    ∀ (palette : FractalType → ℕ → ℕ → Color) (jr ji : ℚ),
      escapePixelColor palette .Mandelbrot jr ji 0 (-0.5) 0 = some blackColor := by
  refine ⟨by norm_num [viewBounds, WIDTH, HEIGHT],
    by norm_num [pixelToPlane, viewBounds, WIDTH, HEIGHT], ?_⟩
  intro palette jr ji
  have hmi : (maxIter 0).toNat = 255 := by
    have h : maxIter 0 = 255 := by norm_num [maxIter, i32cast, ratTrunc]
    rw [h]; rfl
  have hhalf : (-0.5 : ℚ) = -(1/2) := by norm_num
  have hesc : escapeSteps (-0.5 : ℚ) 0 0 0 255 = 255 := by
    rw [hhalf]
    exact escapeSteps_interior 255 0 (by norm_num) (by norm_num)
  simp only [escapePixelColor, initState, Option.map, hmi, hesc, if_pos]

/-- C2: the escape-time state is initialised by variant — Mandelbrot uses
`z0 = (0, 0)` and `c = p`, Julia uses `z0 = p` and `c = julia_c`; in the Julia
scenario with `julia_c = (-0.7269, 0.1889)`, zoom `1.5`, center `(0, 0)`, the
pixel `(600, 400)` maps to the plane point `(0, 0)` and is initialised with
`z0 = (0, 0)` and `c = (-0.7269, 0.1889)`, which is not `(0, 0)`. -/
theorem init_state_role_swap :
    (∀ jr ji px py : ℚ, initState .Mandelbrot jr ji px py = some (0, 0, px, py)) ∧
    (∀ jr ji px py : ℚ, initState .Julia jr ji px py = some (px, py, jr, ji)) ∧
    pixelToPlane ⟨0, 0, 1.5⟩ 600 400 = (0, 0) ∧
    initState .Julia (-0.7269) 0.1889 0 0 = some (0, 0, -0.7269, 0.1889) ∧
    ((-0.7269 : ℚ), (0.1889 : ℚ)) ≠ ((0 : ℚ), (0 : ℚ)) := by
  refine ⟨fun _ _ _ _ => rfl, fun _ _ _ _ => rfl,
    by norm_num [pixelToPlane, viewBounds, WIDTH, HEIGHT], rfl, by norm_num⟩

/-- C8: for every value `l10` of `log10 zoom`, the iteration budget satisfies
`255 ≤ max_iter ≤ 1000`, and for `zoom < 1` (`l10 ≤ 0`) the boost term is
clamped at zero, giving exactly 255. -/
theorem max_iter_budget (l10 : ℚ) :
    255 ≤ maxIter l10 ∧ maxIter l10 ≤ 1000 ∧
    (l10 ≤ 0 → maxIter l10 = 255) := by
  have hq : (255 : ℚ) ≤ 255 + max 0 (l10 * 100) := by
    have := le_max_left (0 : ℚ) (l10 * 100); linarith
  have hnotlt : ¬(255 + max 0 (l10 * 100) < 0) := by linarith
  have htr : ratTrunc (255 + max 0 (l10 * 100)) = ⌊255 + max 0 (l10 * 100)⌋ := by
    simp [ratTrunc, hnotlt]
  have hfl : (255 : ℤ) ≤ ⌊255 + max 0 (l10 * 100)⌋ :=
    Int.le_floor.mpr (by exact_mod_cast hq)
  have hc : (255 : ℤ) ≤ i32cast (255 + max 0 (l10 * 100)) := by
    unfold i32cast
    rw [htr]
    exact le_max_of_le_right (le_min (by norm_num) hfl)
  refine ⟨le_min hc (by norm_num), min_le_right _ _, ?_⟩
  intro hneg
  have hmax : max (0 : ℚ) (l10 * 100) = 0 := max_eq_left (by nlinarith)
  have : maxIter l10 = min (i32cast 255) 1000 := by
    rw [maxIter, hmax]; norm_num
  rw [this]; decide

theorem max_iter_budget_at_neg_three : maxIter (-3) = 255 :=
  (max_iter_budget (-3)).2.2 (by norm_num)

theorem koch_segments_length (d : ℕ) : ∀ s e : ℝ × ℝ,
    (generate_koch_segments s e d).length = 4 ^ d := by
  induction d with
  | zero => intro s e; rfl
  | succ k ih =>
    intro s e
    simp only [generate_koch_segments, List.length_append, ih]
    ring

/-- C3: the Koch subdivision at depth `d` appends exactly `4 ^ d` segments to
the output list for every pair of endpoints, and at depth 0 it appends exactly
the single segment `(start, end)` unchanged. -/
theorem koch_subdivision_count :
    (∀ (s e : ℝ × ℝ) (d : ℕ), (generate_koch_segments s e d).length = 4 ^ d) ∧
    ∀ s e : ℝ × ℝ, generate_koch_segments s e 0 = [(s, e)] :=
  ⟨fun s e d => koch_segments_length d s e, fun _ _ => rfl⟩

/-- C6: the claimed zero-length guard does not exist.  For the degenerate
segment `start = end = (0, 0)` at depth 1, the normal-vector divisor
`sqrt(dx² + dy²)` is zero — the division is executed, not skipped (in the
Rust program `-0.0 / 0.0` is `NaN`) — and the subdivision still recurses,
emitting 4 segments instead of treating the segment as a no-op. -/
theorem koch_zero_length_division_executed :
    KochZeroDiv (0, 0) (0, 0) 1 ∧
    (generate_koch_segments ((0 : ℝ), (0 : ℝ)) ((0 : ℝ), (0 : ℝ)) 1).length = 4 := by
  constructor
  · simp only [KochZeroDiv]
    left
    norm_num
  · simpa using koch_segments_length 1 ((0 : ℝ), (0 : ℝ)) ((0 : ℝ), (0 : ℝ))

/-- C4: `zoom_to_rectangle` leaves the viewport unchanged when the selection
is narrower than 10 px in either screen dimension or when the implied zoom
factor is ≤ 1; otherwise it sets the center to the midpoint of the mapped
corners and multiplies the zoom by the factor. -/
theorem zoom_rect_decline_or_apply (v : Viewport) (s e : ℚ × ℚ) (r : ScreenRect) :
    (zrRectWidth s e < 10 ∨ zrRectHeight s e < 10 →
      zoom_to_rectangle v s e r = (v, false)) ∧
    (zrZoomFactor v s e r ≤ 1 → (zoom_to_rectangle v s e r).1 = v) ∧
    (10 ≤ zrRectWidth s e → 10 ≤ zrRectHeight s e → 1 < zrZoomFactor v s e r →
      zoom_to_rectangle v s e r =
        (⟨((zrSelectedBounds v s e r).1 + (zrSelectedBounds v s e r).2.1) / 2,
          ((zrSelectedBounds v s e r).2.2.1 + (zrSelectedBounds v s e r).2.2.2) / 2,
          v.zoom * zrZoomFactor v s e r⟩, true)) := by
  refine ⟨fun h => ?_, fun h => ?_, fun h1 h2 h3 => ?_⟩
  · simp only [zoom_to_rectangle, if_pos h]
  · simp only [zoom_to_rectangle]
    split
    · rfl
    · rw [if_neg (by simpa using h)]
  · rw [zoom_to_rectangle, if_neg (by push_neg; exact ⟨h1, h2⟩), if_pos h3]

theorem zoom_rect_decline_or_apply_cases :
    zoom_to_rectangle ⟨-(1/2), 0, 1⟩ (100, 100) (105, 200) ⟨0, 0, 1200, 800⟩ =
      (⟨-(1/2), 0, 1⟩, false) ∧
    (zoom_to_rectangle ⟨-(1/2), 0, 1⟩ (0, 0) (-50, -60) ⟨0, 0, 1200, 800⟩).1 =
      ⟨-(1/2), 0, 1⟩ ∧
    zoom_to_rectangle ⟨-(1/2), 0, 1⟩ (100, 100) (200, 200) ⟨0, 0, 1200, 800⟩ =
      (⟨-(35 : ℚ)/16, -(15 : ℚ)/16, 8⟩, true) := by
  refine ⟨(zoom_rect_decline_or_apply _ _ _ _).1 (Or.inl (by norm_num [zrRectWidth])),
    (zoom_rect_decline_or_apply _ _ _ _).2.1
      (by norm_num [zrZoomFactor, zrSelectedBounds, zrRelCoords, clampQ,
        viewBounds, WIDTH, HEIGHT, min_def, max_def]), ?_⟩
  rw [(zoom_rect_decline_or_apply _ _ _ _).2.2 (by norm_num [zrRectWidth])
    (by norm_num [zrRectHeight])
    (by norm_num [zrZoomFactor, zrSelectedBounds, zrRelCoords, clampQ,
      viewBounds, WIDTH, HEIGHT, min_def, max_def])]
  norm_num [zrZoomFactor, zrSelectedBounds, zrRelCoords, clampQ,
    viewBounds, WIDTH, HEIGHT, min_def, max_def, Viewport.mk.injEq]

/-- C5: the zero-divisor guard claimed by the spec does not exist.  The
selection `start = (0, 0)` (the image's top-left corner), `end = (-50, -60)`
over the image rect `(0, 0)–(1200, 800)` passes the 10 px filter, yet both
clamped corners coincide, so `selected_width = selected_height = 0` and the
zoom-factor divisions at main.rs lines 672-673 divide by zero (in the Rust
program `width_range / 0.0 = +∞ > 1.0`, so `zoom` is assigned `+∞`). -/
theorem zoom_rect_division_by_zero_reached :
    zrHitsZeroDiv ⟨-(1/2), 0, 1⟩ (0, 0) (-50, -60) ⟨0, 0, 1200, 800⟩ = true ∧
    (zrSelectedBounds ⟨-(1/2), 0, 1⟩ (0, 0) (-50, -60) ⟨0, 0, 1200, 800⟩).2.1 -
      (zrSelectedBounds ⟨-(1/2), 0, 1⟩ (0, 0) (-50, -60) ⟨0, 0, 1200, 800⟩).1 = 0 ∧
    ¬(zrRectWidth ((0 : ℚ), (0 : ℚ)) (-50, -60) < 10 ∨
      zrRectHeight ((0 : ℚ), (0 : ℚ)) (-50, -60) < 10) := by
  refine ⟨by norm_num [zrHitsZeroDiv, zrRectWidth, zrRectHeight, zrSelectedBounds,
      zrRelCoords, clampQ, viewBounds, WIDTH, HEIGHT, min_def, max_def],
    by norm_num [zrSelectedBounds, zrRelCoords, clampQ, viewBounds, WIDTH, HEIGHT,
      min_def, max_def],
    by norm_num [zrRectWidth, zrRectHeight]⟩

/-- C7: every viewport-mutating operation — key zoom-in (×1.5), key zoom-out
(×0.67), scroll zoom (×1.1 or ×0.9), reset, and zoom-to-rectangle — preserves
the invariant `zoom > 0`. -/
theorem zoom_stays_positive (v : Viewport) (ft : FractalType) (s e : ℚ × ℚ)
    (r : ScreenRect) (delta : ℚ) (h : 0 < v.zoom) :
    0 < (key_zoom_in v).zoom ∧ 0 < (key_zoom_out v).zoom ∧
    0 < (scroll_zoom v delta).zoom ∧ 0 < (reset_view ft).zoom ∧
    0 < (zoom_to_rectangle v s e r).1.zoom := by
  refine ⟨mul_pos h (by norm_num), mul_pos h (by norm_num), ?_, ?_, ?_⟩
  · simp only [scroll_zoom]
    split
    · exact mul_pos h (by norm_num)
    · exact mul_pos h (by norm_num)
  · cases ft <;> norm_num [reset_view]
  · simp only [zoom_to_rectangle]
    split
    · exact h
    · split
      · exact mul_pos h (lt_trans one_pos (by assumption))
      · exact h

theorem zoom_stays_positive_from_default :
    0 < (key_zoom_in ⟨-(1/2), 0, 1⟩).zoom ∧
    0 < (key_zoom_out ⟨-(1/2), 0, 1⟩).zoom ∧
    0 < (scroll_zoom ⟨-(1/2), 0, 1⟩ 1).zoom ∧
    0 < (reset_view .Koch).zoom ∧
    0 < (zoom_to_rectangle ⟨-(1/2), 0, 1⟩ (100, 100) (200, 200)
          ⟨0, 0, 1200, 800⟩).1.zoom :=
  zoom_stays_positive ⟨-(1/2), 0, 1⟩ .Koch (100, 100) (200, 200)
    ⟨0, 0, 1200, 800⟩ 1 (by norm_num)

/-- C10: every buffer index produced by `draw_line` passes the per-pixel
bounds guard, so it lies inside the `WIDTH × HEIGHT` pixel buffer, for every
viewport and every pair of plane-space endpoints. -/
theorem drawLineStamp_mem (sx sy ex ey : ℤ) (i steps : ℕ) (p : ℤ × ℤ)
    (hp : p ∈ drawLineStamp sx sy ex ey i steps) :
    0 ≤ p.1 ∧ p.1 < (WIDTH : ℤ) ∧ 0 ≤ p.2 ∧ p.2 < (HEIGHT : ℤ) := by
  simp only [drawLineStamp, List.mem_flatMap] at hp
  obtain ⟨dy, _, dx, _, hmem⟩ := hp
  split at hmem
  · rename_i hguard
    simp only [List.mem_singleton] at hmem
    subst hmem
    exact hguard
  · simp at hmem

theorem draw_line_indices_in_bounds (v : Viewport) (s e : ℚ × ℚ) :
    ∀ idx ∈ draw_line_indices v s e, 0 ≤ idx ∧ idx < (WIDTH : ℤ) * (HEIGHT : ℤ) := by
  intro idx hidx
  simp only [draw_line_indices, List.mem_flatMap, List.mem_map] at hidx
  obtain ⟨i, _, p, hp, hidx⟩ := hidx
  obtain ⟨h1, h2, h3, h4⟩ := drawLineStamp_mem _ _ _ _ _ _ p hp
  subst hidx
  have hw : (WIDTH : ℤ) = 1200 := rfl
  have hh : (HEIGHT : ℤ) = 800 := rfl
  rw [hw] at h2 ⊢
  rw [hh] at h4
  omega

theorem draw_line_indices_in_bounds_sample :
    0 ≤ (479399 : ℤ) ∧ (479399 : ℤ) < (WIDTH : ℤ) * (HEIGHT : ℤ) :=
  draw_line_indices_in_bounds ⟨0, 0, 1⟩ (0, 0) (0, 0) 479399
    (by norm_num [draw_line_indices, drawLineStamp, viewBounds, WIDTH, HEIGHT,
      i32cast, ratTrunc, absI, maxI, List.range_succ])

theorem stepDragged_preserves_flags (st : AppState) (pos : Option (ℚ × ℚ))
    (shift : Bool) :
    (stepDragged st pos shift).dragging = st.dragging ∧
    (stepDragged st pos shift).selecting_zoom_rect = st.selecting_zoom_rect := by
  cases pos with
  | none => exact ⟨rfl, rfl⟩
  | some p =>
    simp only [stepDragged]
    split
    · exact ⟨rfl, rfl⟩
    · split
      · split
        · exact ⟨rfl, rfl⟩
        · exact ⟨rfl, rfl⟩
      · exact ⟨rfl, rfl⟩

theorem stepDragStopped_clears_flags (st : AppState) (r : ScreenRect)
    (h : (st.dragging && st.selecting_zoom_rect) = false) :
    (stepDragStopped st r).dragging = false ∧
    (stepDragStopped st r).selecting_zoom_rect = false := by
  simp only [stepDragStopped]
  by_cases hs : st.selecting_zoom_rect = true
  · rw [if_pos hs]
    have hd : st.dragging = false := by
      cases hdr : st.dragging
      · rfl
      · rw [hdr, hs] at h; simp at h
    constructor
    · split <;> simpa using hd
    · rfl
  · rw [if_neg hs]
    exact ⟨rfl, by simpa using hs⟩

theorem stepDragStarted_one_flag (st : AppState) (pos : Option (ℚ × ℚ))
    (inImage shift : Bool) (hd : st.dragging = false)
    (hs : st.selecting_zoom_rect = false) :
    ((stepDragStarted st pos inImage shift).dragging &&
      (stepDragStarted st pos inImage shift).selecting_zoom_rect) = false := by
  cases pos with
  | none => simp [stepDragStarted, hd, hs]
  | some p =>
    simp only [stepDragStarted]
    split
    · split
      · simpa using hd
      · simpa using hs
    · simp [hd, hs]

theorem gesture_flags_invariant (evs : List PtrEvent) : ∀ (g : Bool) (st : AppState),
    (st.dragging && st.selecting_zoom_rect) = false →
    (g = false → st.dragging = false ∧ st.selecting_zoom_rect = false) →
    validSeq g evs = true →
    ((evs.foldl step st).dragging && (evs.foldl step st).selecting_zoom_rect) = false := by
  induction evs with
  | nil => intro g st h1 _ _; simpa using h1
  | cons ev rest ih =>
    intro g st h1 h2 hv
    cases ev with
    | dragStarted pos inImage shift =>
      simp only [validSeq, Bool.and_eq_true, Bool.not_eq_true'] at hv
      obtain ⟨hg, hv'⟩ := hv
      obtain ⟨hd, hs⟩ := h2 hg
      refine ih true _ (stepDragStarted_one_flag st pos inImage shift hd hs)
        (fun hfalse => by simp at hfalse) hv'
    | dragged pos shift =>
      simp only [validSeq, Bool.and_eq_true] at hv
      obtain ⟨hg, hv'⟩ := hv
      have hpres := stepDragged_preserves_flags st pos shift
      refine ih true _ ?_ (fun hfalse => by simp at hfalse) hv'
      simp only [step, hpres.1, hpres.2]
      exact h1
    | dragStopped r =>
      simp only [validSeq, Bool.and_eq_true] at hv
      obtain ⟨hg, hv'⟩ := hv
      have hclear := stepDragStopped_clears_flags st r h1
      refine ih false _ ?_ (fun _ => hclear) hv'
      simp only [step, hclear.1, hclear.2]
      rfl

/-- C9: along every event sequence respecting the egui drag protocol, starting
from any state with both gesture flags clear (in particular the initial app
state), `dragging` and `selecting_zoom_rect` are never simultaneously true;
and a `dragged` event never changes either flag, so the gesture chosen from
the modifier at drag-start persists for the whole drag — changing the modifier
mid-drag cannot turn a pan into a rectangle selection or vice versa. -/
theorem gesture_exclusive_and_stable :
    (∀ (evs : List PtrEvent) (st : AppState),
      st.dragging = false → st.selecting_zoom_rect = false →
      validSeq false evs = true →
      ((evs.foldl step st).dragging &&
        (evs.foldl step st).selecting_zoom_rect) = false) ∧
    ∀ (st : AppState) (pos : Option (ℚ × ℚ)) (shift : Bool),
      (step st (.dragged pos shift)).dragging = st.dragging ∧
      (step st (.dragged pos shift)).selecting_zoom_rect = st.selecting_zoom_rect := by
  constructor
  · intro evs st hd hs hv
    exact gesture_flags_invariant evs false st (by simp [hd, hs])
      (fun _ => ⟨hd, hs⟩) hv
  · intro st pos shift
    exact stepDragged_preserves_flags st pos shift

theorem gesture_exclusive_on_shift_drag :
    (([PtrEvent.dragStarted (some (100, 100)) true true,
       PtrEvent.dragged (some (120, 130)) false,
       PtrEvent.dragStopped ⟨0, 0, 1200, 800⟩].foldl step initialAppState).dragging &&
     ([PtrEvent.dragStarted (some (100, 100)) true true,
       PtrEvent.dragged (some (120, 130)) false,
       PtrEvent.dragStopped ⟨0, 0, 1200, 800⟩].foldl step
        initialAppState).selecting_zoom_rect) = false :=
  gesture_exclusive_and_stable.1 _ initialAppState rfl rfl rfl

end FractalApp
